import Mathlib

/-
  Verification of the TCC (Try-Confirm-Cancel) coordinator core against its
  specification.  The definitions below are shallow embeddings of the Go
  resource managers and coordinators found in the repository:

  - src/trans/tcc/seckill_tcc.go             (SeckillInventoryResource, SeckillTCCManager)
  - src/trans/tcc_seckill2/improved_seata_style.go (InventoryRM, ImprovedCoordinator)
  - src/trans/tcc_seckill2/seckill_standard.go     (AccountRM, Coordinator.Compensate)
  - src/unnamed/part_007                      (tcc_transaction sweep query and phase SQL)
  - src/unnamed/part_008                      (DirectInventoryResource, SeckillDirectTCCManager)

  Database rows are modeled as structures, tables as lists of rows, and each
  Go method as a pure function returning its result together with the state
  after the enclosing SQL transaction commits (on an error return the deferred
  rollback leaves the state unchanged).
-/

namespace Spec2Proof

/-- Error outcomes of the resource-manager operations.  The Go code reports
errors as formatted strings; each constructor stands for one distinct error
return site: insufficientStock for the capacity checks, freezeNotFound for a
missing freeze/branch row, invalidState for an unexpected branch status. -/
inductive TCCErr where
  | insufficientStock
  | freezeNotFound
  | invalidState
deriving DecidableEq, Repr

/-- Result of one RM operation: ok mirrors a nil error return. -/
inductive TCCResult where
  | ok
  | fail (e : TCCErr)
deriving DecidableEq, Repr

/- ===== src/trans/tcc/seckill_tcc.go : SeckillInventoryResource ===== -/

/-- Status column of seckill_inventory_freeze (FROZEN / CONFIRMED / CANCELLED). -/
inductive FreezeStatus where
  | frozen
  | confirmed
  | cancelled
deriving DecidableEq, Repr

/-- One row of seckill_inventory_freeze for the product under consideration. -/
structure FreezeRec where
  txId : Nat
  quantity : Int
  status : FreezeStatus
deriving DecidableEq, Repr

/-- The seckill_inventory row for one product (stock, frozen_stock, sold_stock)
together with its seckill_inventory_freeze rows, in insertion order. -/
structure SIState where
  stock : Int
  frozenStock : Int
  soldStock : Int
  freezes : List FreezeRec
deriving DecidableEq, Repr

/-- UPDATE seckill_inventory_freeze SET status = st WHERE transaction_id = tx
(no status filter in the source; every row of the transaction is updated). -/
def markFreeze (tx : Nat) (st : FreezeStatus) (l : List FreezeRec) : List FreezeRec :=
  l.map fun f => if f.txId = tx then { f with status := st } else f

/-- SeckillInventoryResource.Try (seckill_tcc.go lines 42-99): check stock,
deduct available stock, add frozen stock, insert a FROZEN freeze row.  There is
no idempotency lookup in this prototype. -/
def SeckillInventoryResource.Try (tx : Nat) (q : Int) (s : SIState) : TCCResult × SIState :=
  if s.stock < q then (.fail .insufficientStock, s)
  else
    (.ok, { s with
            stock := s.stock - q
            frozenStock := s.frozenStock + q
            freezes := s.freezes ++ [{ txId := tx, quantity := q, status := .frozen }] })

/-- SeckillInventoryResource.Confirm (seckill_tcc.go lines 102-148): find the
FROZEN freeze row of the transaction; move its quantity from frozen_stock to
sold_stock and set every freeze row of the transaction to CONFIRMED.  On a
missing row the operation fails and the transaction is rolled back. -/
def SeckillInventoryResource.Confirm (tx : Nat) (s : SIState) : TCCResult × SIState :=
  match s.freezes.find? (fun f => decide (f.txId = tx ∧ f.status = .frozen)) with
  | none => (.fail .freezeNotFound, s)
  | some r =>
    (.ok, { s with
            frozenStock := s.frozenStock - r.quantity
            soldStock := s.soldStock + r.quantity
            freezes := markFreeze tx .confirmed s.freezes })

/-- SeckillInventoryResource.Cancel (seckill_tcc.go lines 151-209): find the
freeze row with status FROZEN or CONFIRMED; return the quantity to stock from
frozen_stock (FROZEN) or from sold_stock (CONFIRMED), and set the rows of the
transaction to CANCELLED.  With no matching row Cancel is a successful no-op. -/
def SeckillInventoryResource.Cancel (tx : Nat) (s : SIState) : TCCResult × SIState :=
  match s.freezes.find? (fun f => decide (f.txId = tx ∧ (f.status = .frozen ∨ f.status = .confirmed))) with
  | none => (.ok, s)
  | some r =>
    if r.status = .frozen then
      (.ok, { s with
              stock := s.stock + r.quantity
              frozenStock := s.frozenStock - r.quantity
              freezes := markFreeze tx .cancelled s.freezes })
    else
      (.ok, { s with
              stock := s.stock + r.quantity
              soldStock := s.soldStock - r.quantity
              freezes := markFreeze tx .cancelled s.freezes })

/- ===== src/trans/tcc_seckill2/improved_seata_style.go : InventoryRM ===== -/

/-- State column of inventory_freeze (TRIED / CONFIRMED / CANCELLED). -/
inductive IvState where
  | tried
  | confirmed
  | cancelled
deriving DecidableEq, Repr

/-- One row of inventory_freeze for the item under consideration. -/
structure IFreeze where
  txId : Nat
  freezeQuantity : Int
  state : IvState
deriving DecidableEq, Repr

/-- The seckill_inventory row (available, total) of improved_seata_style.go
together with its inventory_freeze rows. -/
structure IvInvState where
  available : Int
  total : Int
  freezes : List IFreeze
deriving DecidableEq, Repr

/-- UPDATE inventory_freeze SET state = st WHERE tx_id = tx AND state IN fromSts. -/
def markIvFreeze (tx : Nat) (fromSts : List IvState) (st : IvState) (l : List IFreeze) : List IFreeze :=
  l.map fun f => if f.txId = tx ∧ f.state ∈ fromSts then { f with state := st } else f

/-- InventoryRM.Try (improved_seata_style.go lines 28-78): idempotency lookup on
inventory_freeze by transaction id; if a row exists return success unchanged,
else check availability, deduct available and insert a TRIED freeze row. -/
def InventoryRM.Try (tx : Nat) (q : Int) (s : IvInvState) : TCCResult × IvInvState :=
  match s.freezes.find? (fun f => decide (f.txId = tx)) with
  | some _ => (.ok, s)
  | none =>
    if s.available < q then (.fail .insufficientStock, s)
    else
      (.ok, { s with
              available := s.available - q
              freezes := s.freezes ++ [{ txId := tx, freezeQuantity := q, state := .tried }] })

/-- InventoryRM.Confirm (improved_seata_style.go lines 80-117): if no freeze row
exists or its state is CONFIRMED, return success unchanged; otherwise deduct the
argument quantity from total and update the freeze row to CONFIRMED where its
state is TRIED.  Note that a CANCELLED row passes the guard: total is deducted
and the row stays CANCELLED. -/
def InventoryRM.Confirm (tx : Nat) (q : Int) (s : IvInvState) : TCCResult × IvInvState :=
  match s.freezes.find? (fun f => decide (f.txId = tx)) with
  | none => (.ok, s)
  | some r =>
    if r.state = .confirmed then (.ok, s)
    else
      (.ok, { s with
              total := s.total - q
              freezes := markIvFreeze tx [.tried] .confirmed s.freezes })

/-- InventoryRM.Cancel (improved_seata_style.go lines 119-156): if no freeze row
exists or its state is CANCELLED, return success unchanged; otherwise return the
frozen quantity to available and update the row to CANCELLED where its state is
TRIED or CONFIRMED. -/
def InventoryRM.Cancel (tx : Nat) (s : IvInvState) : TCCResult × IvInvState :=
  match s.freezes.find? (fun f => decide (f.txId = tx)) with
  | none => (.ok, s)
  | some r =>
    if r.state = .cancelled then (.ok, s)
    else
      (.ok, { s with
              available := s.available + r.freezeQuantity
              freezes := markIvFreeze tx [.tried, .confirmed] .cancelled s.freezes })

/- ===== src/unnamed/part_008 : DirectInventoryResource ===== -/

/-- operation_type column of inventory_deduct_log. -/
inductive DeductOp where
  | tryDeduct
  | confirmed
  | cancelled
deriving DecidableEq, Repr

/-- One row of inventory_deduct_log for the product under consideration. -/
structure DeductLog where
  txId : Nat
  quantity : Int
  op : DeductOp
deriving DecidableEq, Repr

/-- The seckill_inventory row (stock, sold_count) of part_008 together with its
inventory_deduct_log rows. -/
structure DInvState where
  stock : Int
  soldCount : Int
  log : List DeductLog
deriving DecidableEq, Repr

/-- DirectInventoryResource.Try (part_008 lines 59-126): idempotency count on
inventory_deduct_log by transaction id over all operation types; if a row
exists return success unchanged, else deduct stock where stock suffices,
increment sold_count, insert a TRY_DEDUCT log row. -/
def DirectInventoryResource.Try (tx : Nat) (q : Int) (s : DInvState) : TCCResult × DInvState :=
  match s.log.find? (fun r => decide (r.txId = tx)) with
  | some _ => (.ok, s)
  | none =>
    if s.stock < q then (.fail .insufficientStock, s)
    else
      (.ok, { stock := s.stock - q
              soldCount := s.soldCount + q
              log := s.log ++ [{ txId := tx, quantity := q, op := .tryDeduct }] })

/-- DirectInventoryResource.Cancel (part_008 lines 183-250): read the log row of
the transaction; CANCELLED is a successful no-op; for TRY_DEDUCT or CONFIRMED
return the quantity to stock, decrement sold_count, and mark the rows of the
transaction CANCELLED. -/
def DirectInventoryResource.Cancel (tx : Nat) (s : DInvState) : TCCResult × DInvState :=
  match s.log.find? (fun r => decide (r.txId = tx)) with
  | none => (.ok, s)
  | some r =>
    if r.op = .cancelled then (.ok, s)
    else
      (.ok, { stock := s.stock + r.quantity
              soldCount := s.soldCount - r.quantity
              log := s.log.map fun f => if f.txId = tx then { f with op := .cancelled } else f })

/- ===== src/trans/tcc_seckill2/seckill_standard.go : AccountRM ===== -/

/-- One row of the account table of seckill_standard.go (balance, version). -/
structure Account where
  balance : Int
  version : Int
deriving DecidableEq, Repr

/-- AccountRM.Try (seckill_standard.go lines 72-86): read version FOR UPDATE,
then UPDATE account SET balance = balance - amount, version = version + 1 WHERE
version matches the value just read (always true in a serial execution). -/
def AccountRM.Try (amount : Int) (s : Account) : TCCResult × Account :=
  (.ok, { balance := s.balance - amount, version := s.version + 1 })

/-- AccountRM.Confirm (seckill_standard.go lines 88-101): read version FOR
UPDATE, then UPDATE account SET balance = balance + amount, version = version + 1
WHERE version matches.  Confirm adds the amount back to the balance. -/
def AccountRM.Confirm (amount : Int) (s : Account) : TCCResult × Account :=
  (.ok, { balance := s.balance + amount, version := s.version + 1 })

/- ===== Coordinators, modeled by the trace of RM invocations ===== -/

/-- Abstract behavior of one registered resource: whether its Try and its
Confirm succeed when invoked (Cancel errors are only logged by the
coordinators, so they do not influence control flow). -/
structure RMBeh where
  tryOk : Bool
  confirmOk : Bool
deriving DecidableEq, Repr

/-- One observable coordinator action of seckill_tcc.go: invoking Try, Confirm
or Cancel on the resource at a given index of the registered slice. -/
inductive CoordEvent where
  | tryEv (i : Nat)
  | confirmEv (i : Nat)
  | cancelEv (i : Nat)
deriving DecidableEq, Repr

/-- The Try loop of ExecuteSeckillTCC (seckill_tcc.go lines 463-471), started at
slice index i: emits a Try invocation per resource and stops at the first
failure. -/
def runTries : List RMBeh → Nat → List CoordEvent × Bool
  | [], _ => ([], true)
  | r :: rest, i =>
    if r.tryOk then
      let p := runTries rest (i + 1)
      (.tryEv i :: p.1, p.2)
    else ([.tryEv i], false)

/-- The Confirm loop of ExecuteSeckillTCC (seckill_tcc.go lines 476-483). -/
def runConfirms : List RMBeh → Nat → List CoordEvent × Bool
  | [], _ => ([], true)
  | r :: rest, i =>
    if r.confirmOk then
      let p := runConfirms rest (i + 1)
      (.confirmEv i :: p.1, p.2)
    else ([.confirmEv i], false)

/-- cancelResources (seckill_tcc.go lines 490-497): Cancel every registered
resource, in slice order, errors only logged. -/
def cancelResources (n : Nat) : List CoordEvent :=
  (List.range n).map .cancelEv

/-- SeckillTCCManager.ExecuteSeckillTCC (seckill_tcc.go lines 455-487): Try all
resources in slice order; on a Try failure cancel all and fail; otherwise
Confirm all; on a Confirm failure cancel all and fail; otherwise succeed. -/
def SeckillTCCManager.ExecuteSeckillTCC (rms : List RMBeh) : Bool × List CoordEvent :=
  let t := runTries rms 0
  if t.2 then
    let c := runConfirms rms 0
    if c.2 then (true, t.1 ++ c.1)
    else (false, t.1 ++ c.1 ++ cancelResources rms.length)
  else (false, t.1 ++ cancelResources rms.length)

/-- Global transaction status values written by part_008 (tcc_transaction_log). -/
inductive DStatus where
  | tried
  | confirmed
  | cancelled
deriving DecidableEq, Repr

/-- One observable action of the part_008 manager: an RM invocation by slice
index or a status write to tcc_transaction_log. -/
inductive DEvent where
  | tryEv (i : Nat)
  | confirmEv (i : Nat)
  | cancelEv (i : Nat)
  | logStatus (st : DStatus)
deriving DecidableEq, Repr

/-- tryResources (part_008 lines 690-709), started at slice index i: Try each
resource in order; on the failure of resource i, Cancel resources i-1 down to 0
and report failure. -/
def tryResources : List RMBeh → Nat → List DEvent × Bool
  | [], _ => ([], true)
  | r :: rest, i =>
    if r.tryOk then
      let p := tryResources rest (i + 1)
      (.tryEv i :: p.1, p.2)
    else (.tryEv i :: ((List.range i).reverse.map .cancelEv), false)

/-- confirmResources (part_008 lines 712-723): Confirm each resource in order,
stopping at the first failure. -/
def confirmResources : List RMBeh → Nat → List DEvent × Bool
  | [], _ => ([], true)
  | r :: rest, i =>
    if r.confirmOk then
      let p := confirmResources rest (i + 1)
      (.confirmEv i :: p.1, p.2)
    else ([.confirmEv i], false)

/-- cancelResources of part_008 (lines 726-736): Cancel every resource in slice
order, errors only logged. -/
def cancelResourcesD (n : Nat) : List DEvent :=
  (List.range n).map .cancelEv

/-- SeckillDirectTCCManager.ExecuteSeckill (part_008 lines 636-687) for a fresh
transaction id: run the Try phase; on failure record status CANCELLED and
cancel every resource; on success record TRIED and run the Confirm phase; on a
Confirm failure record CANCELLED and cancel every resource; on success record
CONFIRMED. -/
def SeckillDirectTCCManager.ExecuteSeckill (rms : List RMBeh) : Bool × List DEvent :=
  let t := tryResources rms 0
  if t.2 then
    let c := confirmResources rms 0
    if c.2 then (true, t.1 ++ [.logStatus .tried] ++ c.1 ++ [.logStatus .confirmed])
    else (false, t.1 ++ [.logStatus .tried] ++ c.1 ++ [.logStatus .cancelled] ++ cancelResourcesD rms.length)
  else (false, t.1 ++ [.logStatus .cancelled] ++ cancelResourcesD rms.length)

/-- Resource-manager registry keys of the improved_seata_style.go and
seckill_standard.go coordinators (a Go map with keys inventory, account, order). -/
inductive RMName where
  | inventory
  | account
  | order
deriving DecidableEq, Repr

/-- ImprovedCoordinator.StartTransaction (improved_seata_style.go lines
352-390), Try phase: ranges over the resources map and invokes Try on each
entry; Go map iteration order is unspecified, so the order in which the
entries are visited is an input of the run.  Returns whether all Tries
succeeded and the sequence of resources on which Try was invoked. -/
def ImprovedCoordinator.StartTransaction (iterOrder : List RMName) (tryOkOf : RMName → Bool) :
    Bool × List RMName :=
  match iterOrder with
  | [] => (true, [])
  | n :: rest =>
    if tryOkOf n then
      let p := ImprovedCoordinator.StartTransaction rest tryOkOf
      (p.1, n :: p.2)
    else (false, [n])

/- ===== src/unnamed/part_007 : global phases and the recovery sweep ===== -/

/-- status column of tcc_transaction (part_007 lines 350-362). -/
inductive GPhase where
  | trying
  | tried
  | confirming
  | confirmedG
  | cancelling
  | cancelledG
  | failed
deriving DecidableEq, Repr

/-- One row of tcc_transaction. -/
structure GTxn where
  txId : Nat
  phase : GPhase
  retryCount : Int
  maxRetry : Int
  timeoutTime : Int
  updateTime : Int
deriving DecidableEq, Repr

/-- A phase is non-terminal when it is one of the four in-flight states the
sweep query searches for. -/
def nonTerminal (p : GPhase) : Bool :=
  p == .trying || p == .tried || p == .confirming || p == .cancelling

/-- A phase is terminal when it is CONFIRMED, CANCELLED or FAILED. -/
def terminalPhase (p : GPhase) : Bool :=
  p == .confirmedG || p == .cancelledG || p == .failed

/-- WHERE clause of the sweep query (part_007 lines 583-588): non-terminal
status, retry_count below max_retry, and NOW() before timeout_time. -/
def sweepFilter (now : Int) (r : GTxn) : Bool :=
  nonTerminal r.phase && decide (r.retryCount < r.maxRetry) && decide (now < r.timeoutTime)

/-- The sweep query (part_007 lines 583-588): filter, ORDER BY update_time,
LIMIT 100. -/
def sweepSelect (now : Int) (rows : List GTxn) : List GTxn :=
  ((rows.filter (sweepFilter now)).insertionSort (fun a b => a.updateTime ≤ b.updateTime)).take 100

/-- The action the sweeper dispatches for one selected row. -/
inductive SweepAction where
  | confirmAct
  | cancelAct
deriving DecidableEq, Repr

/-- Dispatch of the sweeper (part_007 lines 590-613, matching Compensate in
seckill_standard.go lines 295-316): TRYING is unwound with Cancel, TRIED and
CONFIRMING are resumed with Confirm, CANCELLING is resumed with Cancel. -/
def sweepDispatch (p : GPhase) : Option SweepAction :=
  match p with
  | .trying => some .cancelAct
  | .tried => some .confirmAct
  | .confirming => some .confirmAct
  | .cancelling => some .cancelAct
  | _ => none

/-- First status update of the coordinator Confirm (part_007 line 461, matching
improved_seata_style.go lines 402-406): TRIED moves to CONFIRMING. -/
def confirmPhaseStart (p : GPhase) : GPhase :=
  if p = .tried then .confirming else p

/-- Final status update of the coordinator Confirm (part_007 line 514): the row
of the transaction is set to CONFIRMED with no status guard. -/
def confirmPhaseFinish (_ : GPhase) : GPhase :=
  .confirmedG

/-- First status update of the coordinator Cancel (part_007 line 520, matching
improved_seata_style.go lines 447-451): TRYING, TRIED or CONFIRMING moves to
CANCELLING. -/
def cancelPhaseStart (p : GPhase) : GPhase :=
  if p = .trying ∨ p = .tried ∨ p = .confirming then .cancelling else p

/-- Final status update of the coordinator Cancel (part_007 line 576): the row
of the transaction is set to CANCELLED with no status guard. -/
def cancelPhaseFinish (_ : GPhase) : GPhase :=
  .cancelledG

/-- The global-phase effect of one full coordinator Confirm run. -/
def coordConfirmPhase (p : GPhase) : GPhase :=
  confirmPhaseFinish (confirmPhaseStart p)

/-- The global-phase effect of one full coordinator Cancel run. -/
def coordCancelPhase (p : GPhase) : GPhase :=
  cancelPhaseFinish (cancelPhaseStart p)

/-- Re-driving one selected row (part_007 lines 590-613): the dispatched
coordinator call is applied to the global phase. -/
def sweepRedrive (r : GTxn) : GTxn :=
  match sweepDispatch r.phase with
  | some .confirmAct => { r with phase := coordConfirmPhase r.phase }
  | some .cancelAct => { r with phase := coordCancelPhase r.phase }
  | none => r

/-- Timeout handling (part_007 lines 617-619): a transaction whose timeout_time
has passed is set to FAILED. -/
def markTimeoutFailed (now : Int) (r : GTxn) : GTxn :=
  if r.timeoutTime < now then { r with phase := .failed } else r

/- ===== Invariant of the seckill_tcc.go inventory state ===== -/

/-- Quantity a freeze row contributes to the counter of a given status. -/
def statusQty (st : FreezeStatus) (f : FreezeRec) : Int :=
  if f.status = st then f.quantity else 0

/-- Sum of the quantities of the freeze rows having a given status. -/
def sumByStatus (st : FreezeStatus) (l : List FreezeRec) : Int :=
  (l.map (statusQty st)).sum

/-- Reachable-state invariant of the seckill_tcc.go inventory row: stock is
nonnegative, frozen_stock is exactly the total FROZEN quantity, sold_stock
covers the total CONFIRMED quantity, quantities are nonnegative, and each
transaction id owns at most one freeze row (the uniqueness the coordinator
provides by issuing Try once per transaction). -/
def SIInv (s : SIState) : Prop :=
  0 ≤ s.stock ∧
  s.frozenStock = sumByStatus .frozen s.freezes ∧
  sumByStatus .confirmed s.freezes ≤ s.soldStock ∧
  (∀ f ∈ s.freezes, 0 ≤ f.quantity) ∧
  s.freezes.Pairwise (fun a b => a.txId ≠ b.txId)

/-- The conserved capacity of the inventory row: stock + frozen + sold. -/
def totalOf (s : SIState) : Int := s.stock + s.frozenStock + s.soldStock

/-- Conclusion of one legal step from s to s-after: the partition equation
frozen + available = total - sold holds with the initial total, available and
frozen stay nonnegative, and the reachable-state invariant is maintained. -/
def goodStep (s s' : SIState) : Prop :=
  s'.frozenStock + s'.stock = totalOf s - s'.soldStock ∧
  0 ≤ s'.stock ∧ 0 ≤ s'.frozenStock ∧ SIInv s'

/- ===================== Theorems ===================== -/

/-- Claim C10: in the version-based prototype, AccountRM.Try subtracts the
amount from the balance and AccountRM.Confirm adds the same amount back, so
Try followed by Confirm of the same amount leaves the balance at its initial
value: a confirmed transaction ultimately charges the account nothing. -/
theorem c10_account_try_confirm_restores_balance (s : Account) (amount : Int) :
    (AccountRM.Try amount s).2.balance = s.balance - amount ∧
    (AccountRM.Confirm amount (AccountRM.Try amount s).2).2.balance = s.balance := by
  refine ⟨rfl, ?_⟩
  show s.balance - amount + amount = s.balance
  omega

/-- Claim C1 is violated by the code: with resources [inventory, account,
order] where every Try succeeds and the first Confirm fails, ExecuteSeckillTCC
of seckill_tcc.go answers the Confirm failure by invoking Cancel on every
resource after Confirm has already been issued to resource 0, and the
coordinator Cancel shared by improved_seata_style.go and part_007 moves a
CONFIRMING global transaction to CANCELLING. -/
theorem c1_confirm_failure_triggers_cancel :
    SeckillTCCManager.ExecuteSeckillTCC
        [⟨true, false⟩, ⟨true, true⟩, ⟨true, true⟩] =
      (false, [.tryEv 0, .tryEv 1, .tryEv 2, .confirmEv 0,
               .cancelEv 0, .cancelEv 1, .cancelEv 2]) ∧
    cancelPhaseStart .confirming = .cancelling := by
  refine ⟨by decide, rfl⟩

/-- Claim C4 is violated by the code: on a branch whose freeze row is already
CANCELLED, InventoryRM.Confirm of improved_seata_style.go returns success
instead of a non-retryable error, and it deducts the quantity from the total
counter while the branch row stays CANCELLED. -/
theorem c4_confirm_after_cancel_mutates :
    InventoryRM.Confirm 7 2
        { available := 10, total := 10
          freezes := [{ txId := 7, freezeQuantity := 2, state := .cancelled }] } =
      (.ok, { available := 10, total := 8
              freezes := [{ txId := 7, freezeQuantity := 2, state := .cancelled }] }) := by
  decide

/-- Claim C2 fails on SeckillInventoryResource.Try of seckill_tcc.go: starting
from stock 10 with no freeze rows, a second Try with the same transaction id
and quantity deducts stock again and inserts a second freeze row, so the state
after two Try calls differs from the state after one. -/
theorem c2_seckill_try_reapplies_effects :
    (SeckillInventoryResource.Try 1 3
        (SeckillInventoryResource.Try 1 3 ⟨10, 0, 0, []⟩).2).2 ≠
      (SeckillInventoryResource.Try 1 3 (⟨10, 0, 0, []⟩ : SIState)).2 := by
  decide

/-- Claim C9 fails on the map-based coordinators: the resources field of
ImprovedCoordinator is a Go map, whose iteration order is unspecified, so two
runs over the same registered resource managers (the same key set, here two
permutations of it) and the same inputs may invoke Try in different sequences. -/
theorem c9_map_iteration_two_runs_differ :
    ([RMName.inventory, .account, .order].Perm [RMName.order, .account, .inventory]) ∧
    ImprovedCoordinator.StartTransaction [RMName.inventory, .account, .order] (fun _ => true) ≠
      ImprovedCoordinator.StartTransaction [RMName.order, .account, .inventory] (fun _ => true) := by
  refine ⟨by decide, by decide⟩

/-- Claim C2 (amended to the freeze-table resource managers): InventoryRM.Try
of improved_seata_style.go is idempotent: a second Try with the same
transaction id and arguments leaves the resource counters and freeze rows
exactly as after the first call, and it returns success whenever the first
call succeeded, without re-applying any effect. -/
theorem c2_improved_try_idempotent (tx : Nat) (q : Int) (s : IvInvState) :
    (InventoryRM.Try tx q (InventoryRM.Try tx q s).2).2 = (InventoryRM.Try tx q s).2 ∧
    ((InventoryRM.Try tx q s).1 = .ok →
      InventoryRM.Try tx q (InventoryRM.Try tx q s).2 = (.ok, (InventoryRM.Try tx q s).2)) := by
  cases hf : s.freezes.find? (fun f => decide (f.txId = tx)) with
  | some r => simp [InventoryRM.Try, hf]
  | none =>
    by_cases hq : s.available < q
    · simp [InventoryRM.Try, hf, hq]
    · simp [InventoryRM.Try, hf, hq, List.find?_append]

/-- Witness for the amended claim C2 at a concrete state. -/
theorem c2_improved_try_idempotent_witness :
    InventoryRM.Try 1 2 (InventoryRM.Try 1 2 ⟨5, 5, []⟩).2 =
      (.ok, (InventoryRM.Try 1 2 (⟨5, 5, []⟩ : IvInvState)).2) :=
  (c2_improved_try_idempotent 1 2 ⟨5, 5, []⟩).2 (by decide)

/-- Claim C5: a Try whose requested quantity exceeds the available capacity
fails with the insufficient-capacity error and performs no mutation: the
counters are unchanged and no freeze/log row is created.  Stated for
SeckillInventoryResource.Try and, for a transaction id with no prior log row,
DirectInventoryResource.Try of part_008. -/
theorem c5_try_insufficient_no_mutation (tx : Nat) (q : Int) (s : SIState) (d : DInvState) :
    (s.stock < q → SeckillInventoryResource.Try tx q s = (.fail .insufficientStock, s)) ∧
    ((∀ r ∈ d.log, r.txId ≠ tx) → d.stock < q →
      DirectInventoryResource.Try tx q d = (.fail .insufficientStock, d)) := by
  constructor
  · intro h
    simp [SeckillInventoryResource.Try, h]
  · intro hfresh h
    have hnone : d.log.find? (fun r => decide (r.txId = tx)) = none := by
      rw [List.find?_eq_none]
      intro x hx
      simpa using hfresh x hx
    simp [DirectInventoryResource.Try, hnone, h]

/-- Witness for claim C5 at concrete states with stock 3 and request 5. -/
theorem c5_try_insufficient_witness :
    SeckillInventoryResource.Try 1 5 ⟨3, 0, 0, []⟩ =
      (.fail .insufficientStock, (⟨3, 0, 0, []⟩ : SIState)) ∧
    DirectInventoryResource.Try 1 5 ⟨3, 0, []⟩ =
      (.fail .insufficientStock, (⟨3, 0, []⟩ : DInvState)) :=
  ⟨(c5_try_insufficient_no_mutation 1 5 ⟨3, 0, 0, []⟩ ⟨3, 0, []⟩).1 (by decide),
   (c5_try_insufficient_no_mutation 1 5 ⟨3, 0, 0, []⟩ ⟨3, 0, []⟩).2 (by decide) (by decide)⟩

/-- Claim C3: from any state with sufficient capacity and no prior branch row
for the transaction id, a successful Try followed by Cancel for the same
transaction id restores the available, frozen, and committed counters exactly
to their pre-Try values, in all three cited implementations. -/
theorem c3_try_cancel_round_trip (tx : Nat) (q : Int) (s : SIState) (iv : IvInvState) (d : DInvState) :
    ((∀ f ∈ s.freezes, f.txId ≠ tx) → q ≤ s.stock →
      (SeckillInventoryResource.Cancel tx (SeckillInventoryResource.Try tx q s).2).2.stock = s.stock ∧
      (SeckillInventoryResource.Cancel tx (SeckillInventoryResource.Try tx q s).2).2.frozenStock = s.frozenStock ∧
      (SeckillInventoryResource.Cancel tx (SeckillInventoryResource.Try tx q s).2).2.soldStock = s.soldStock) ∧
    ((∀ f ∈ iv.freezes, f.txId ≠ tx) → q ≤ iv.available →
      (InventoryRM.Cancel tx (InventoryRM.Try tx q iv).2).2.available = iv.available ∧
      (InventoryRM.Cancel tx (InventoryRM.Try tx q iv).2).2.total = iv.total) ∧
    ((∀ r ∈ d.log, r.txId ≠ tx) → q ≤ d.stock →
      (DirectInventoryResource.Cancel tx (DirectInventoryResource.Try tx q d).2).2.stock = d.stock ∧
      (DirectInventoryResource.Cancel tx (DirectInventoryResource.Try tx q d).2).2.soldCount = d.soldCount) := by
  refine ⟨?_, ?_, ?_⟩
  · intro hfresh hq
    have hlt : ¬ s.stock < q := by omega
    have hnone : s.freezes.find?
        (fun f => decide (f.txId = tx) &&
          (decide (f.status = FreezeStatus.frozen) || decide (f.status = FreezeStatus.confirmed))) =
        none := by
      rw [List.find?_eq_none]
      intro x hx
      simp [hfresh x hx]
    simp [SeckillInventoryResource.Try, hlt, SeckillInventoryResource.Cancel,
      List.find?_append, hnone]
  · intro hfresh hq
    have hlt : ¬ iv.available < q := by omega
    have hnone : iv.freezes.find? (fun f => decide (f.txId = tx)) = none := by
      rw [List.find?_eq_none]
      intro x hx
      simpa using hfresh x hx
    simp [InventoryRM.Try, hlt, hnone, InventoryRM.Cancel, List.find?_append]
  · intro hfresh hq
    have hlt : ¬ d.stock < q := by omega
    have hnone : d.log.find? (fun r => decide (r.txId = tx)) = none := by
      rw [List.find?_eq_none]
      intro x hx
      simpa using hfresh x hx
    simp [DirectInventoryResource.Try, hlt, hnone, DirectInventoryResource.Cancel,
      List.find?_append]

/-- Witness for claim C3 at concrete states with capacity 10 and request 4. -/
theorem c3_try_cancel_round_trip_witness :
    ((SeckillInventoryResource.Cancel 1 (SeckillInventoryResource.Try 1 4 ⟨10, 0, 0, []⟩).2).2.stock = 10 ∧
      (SeckillInventoryResource.Cancel 1 (SeckillInventoryResource.Try 1 4 ⟨10, 0, 0, []⟩).2).2.frozenStock = 0 ∧
      (SeckillInventoryResource.Cancel 1 (SeckillInventoryResource.Try 1 4 ⟨10, 0, 0, []⟩).2).2.soldStock = 0) ∧
    ((InventoryRM.Cancel 1 (InventoryRM.Try 1 4 ⟨10, 20, []⟩).2).2.available = 10 ∧
      (InventoryRM.Cancel 1 (InventoryRM.Try 1 4 ⟨10, 20, []⟩).2).2.total = 20) ∧
    ((DirectInventoryResource.Cancel 1 (DirectInventoryResource.Try 1 4 ⟨10, 0, []⟩).2).2.stock = 10 ∧
      (DirectInventoryResource.Cancel 1 (DirectInventoryResource.Try 1 4 ⟨10, 0, []⟩).2).2.soldCount = 0) :=
  ⟨(c3_try_cancel_round_trip 1 4 ⟨10, 0, 0, []⟩ ⟨10, 20, []⟩ ⟨10, 0, []⟩).1 (by decide) (by decide),
   (c3_try_cancel_round_trip 1 4 ⟨10, 0, 0, []⟩ ⟨10, 20, []⟩ ⟨10, 0, []⟩).2.1 (by decide) (by decide),
   (c3_try_cancel_round_trip 1 4 ⟨10, 0, 0, []⟩ ⟨10, 20, []⟩ ⟨10, 0, []⟩).2.2 (by decide) (by decide)⟩

/-- The Try loop of seckill_tcc.go visits indices i, i+1, ... in order when
every Try succeeds. -/
theorem runTries_all_ok (rms : List RMBeh) :
    ∀ i, (∀ b ∈ rms, b.tryOk = true) →
      runTries rms i = ((List.range' i rms.length).map .tryEv, true) := by
  induction rms with
  | nil => intro i _; simp [runTries]
  | cons r rest ih =>
    intro i h
    have hr : r.tryOk = true := h r (by simp)
    have htl := ih (i + 1) (fun b hb => h b (List.mem_cons_of_mem _ hb))
    simp [runTries, hr, htl, List.range'_succ]

/-- The Confirm loop of seckill_tcc.go visits indices i, i+1, ... in order when
every Confirm succeeds. -/
theorem runConfirms_all_ok (rms : List RMBeh) :
    ∀ i, (∀ b ∈ rms, b.confirmOk = true) →
      runConfirms rms i = ((List.range' i rms.length).map .confirmEv, true) := by
  induction rms with
  | nil => intro i _; simp [runConfirms]
  | cons r rest ih =>
    intro i h
    have hr : r.confirmOk = true := h r (by simp)
    have htl := ih (i + 1) (fun b hb => h b (List.mem_cons_of_mem _ hb))
    simp [runConfirms, hr, htl, List.range'_succ]

/-- Claim C9 (amended): the slice-based coordinator of seckill_tcc.go invokes
the resource operations in the fixed registration order of its resources
slice: with all operations succeeding, the trace is exactly Try on indices
0..n-1 in order followed by Confirm on indices 0..n-1 in order, determined by
the registered list alone; the map-based coordinators iterate a Go map and
their order is not fixed across runs. -/
theorem c9_slice_coordinator_fixed_order (rms : List RMBeh)
    (h : ∀ b ∈ rms, b.tryOk = true ∧ b.confirmOk = true) :
    SeckillTCCManager.ExecuteSeckillTCC rms =
      (true, (List.range rms.length).map .tryEv ++ (List.range rms.length).map .confirmEv) := by
  unfold SeckillTCCManager.ExecuteSeckillTCC
  rw [runTries_all_ok rms 0 (fun b hb => (h b hb).1),
      runConfirms_all_ok rms 0 (fun b hb => (h b hb).2)]
  simp [List.range_eq_range']

/-- Witness for the amended claim C9 with two registered resources. -/
theorem c9_slice_coordinator_fixed_order_witness :
    SeckillTCCManager.ExecuteSeckillTCC [⟨true, true⟩, ⟨true, true⟩] =
      (true, (List.range 2).map CoordEvent.tryEv ++ (List.range 2).map CoordEvent.confirmEv) :=
  c9_slice_coordinator_fixed_order [⟨true, true⟩, ⟨true, true⟩] (by decide)

/-- The part_008 Try phase emits no Confirm invocation. -/
theorem confirmEv_not_in_tryResources (rms : List RMBeh) :
    ∀ i k, DEvent.confirmEv k ∉ (tryResources rms i).1 := by
  induction rms with
  | nil => intro i k; simp [tryResources]
  | cons r rest ih =>
    intro i k
    by_cases h : r.tryOk
    · simp [tryResources, h]
      exact ih (i + 1) k
    · simp [tryResources, h]

/-- The part_008 Try phase reports failure when the Tries of a prefix succeed
and the next Try fails. -/
theorem tryResources_fails (pre : List RMBeh) (r : RMBeh) (post : List RMBeh) :
    ∀ i, (∀ b ∈ pre, b.tryOk = true) → r.tryOk = false →
      (tryResources (pre ++ r :: post) i).2 = false := by
  induction pre with
  | nil => intro i _ hr; simp [tryResources, hr]
  | cons a pre ih =>
    intro i hp hr
    have ha : a.tryOk = true := hp a (by simp)
    have htl := ih (i + 1) (fun b hb => hp b (List.mem_cons_of_mem _ hb)) hr
    simp [tryResources, ha, htl]

/-- Claim C7: when the i-th registered resource is the first whose Try fails,
ExecuteSeckill of part_008 returns the failure, records the global status
CANCELLED, invokes Cancel on every resource attempted so far (indices up to
and including the failed one), and never invokes Confirm on any resource. -/
theorem c7_first_try_failure_cancels (pre : List RMBeh) (r : RMBeh) (post : List RMBeh)
    (hpre : ∀ b ∈ pre, b.tryOk = true) (hr : r.tryOk = false) :
    (SeckillDirectTCCManager.ExecuteSeckill (pre ++ r :: post)).1 = false ∧
    DEvent.logStatus .cancelled ∈ (SeckillDirectTCCManager.ExecuteSeckill (pre ++ r :: post)).2 ∧
    (∀ j, j ≤ pre.length →
      DEvent.cancelEv j ∈ (SeckillDirectTCCManager.ExecuteSeckill (pre ++ r :: post)).2) ∧
    (∀ k, DEvent.confirmEv k ∉ (SeckillDirectTCCManager.ExecuteSeckill (pre ++ r :: post)).2) := by
  have hfail : (tryResources (pre ++ r :: post) 0).2 = false :=
    tryResources_fails pre r post 0 hpre hr
  unfold SeckillDirectTCCManager.ExecuteSeckill
  simp only [hfail, Bool.false_eq_true, if_false]
  refine ⟨trivial, ?_, ?_, ?_⟩
  · simp [List.mem_append]
  · intro j hj
    have hmem : DEvent.cancelEv j ∈ cancelResourcesD (pre ++ r :: post).length := by
      simp [cancelResourcesD, List.mem_map, List.mem_range, List.length_append]
      omega
    exact List.mem_append.mpr (Or.inr hmem)
  · intro k
    have h4 := confirmEv_not_in_tryResources (pre ++ r :: post) 0 k
    simp [List.mem_append, cancelResourcesD, h4]

/-- Witness for claim C7: the middle of three resources fails its Try. -/
theorem c7_first_try_failure_cancels_witness :
    (SeckillDirectTCCManager.ExecuteSeckill [⟨true, true⟩, ⟨false, true⟩, ⟨true, true⟩]).1 = false ∧
    DEvent.logStatus .cancelled ∈
      (SeckillDirectTCCManager.ExecuteSeckill [⟨true, true⟩, ⟨false, true⟩, ⟨true, true⟩]).2 ∧
    DEvent.cancelEv 1 ∈
      (SeckillDirectTCCManager.ExecuteSeckill [⟨true, true⟩, ⟨false, true⟩, ⟨true, true⟩]).2 ∧
    DEvent.confirmEv 0 ∉
      (SeckillDirectTCCManager.ExecuteSeckill [⟨true, true⟩, ⟨false, true⟩, ⟨true, true⟩]).2 :=
  ⟨(c7_first_try_failure_cancels [⟨true, true⟩] ⟨false, true⟩ [⟨true, true⟩] (by decide) rfl).1,
   (c7_first_try_failure_cancels [⟨true, true⟩] ⟨false, true⟩ [⟨true, true⟩] (by decide) rfl).2.1,
   (c7_first_try_failure_cancels [⟨true, true⟩] ⟨false, true⟩ [⟨true, true⟩] (by decide) rfl).2.2.1
     1 (by decide),
   (c7_first_try_failure_cancels [⟨true, true⟩] ⟨false, true⟩ [⟨true, true⟩] (by decide) rfl).2.2.2 0⟩

/-- A row selected by the sweep query satisfies its WHERE clause. -/
theorem mem_sweepSelect_filter (now : Int) (rows : List GTxn) (r : GTxn)
    (h : r ∈ sweepSelect now rows) : sweepFilter now r = true := by
  unfold sweepSelect at h
  have h1 := List.mem_of_mem_take h
  have h2 := (List.perm_insertionSort (fun a b => a.updateTime ≤ b.updateTime)
    ((rows.filter (sweepFilter now)))).mem_iff.mp h1
  exact (List.mem_filter.mp h2).2

/-- Re-driving any non-terminal phase through the dispatched coordinator call
lands in a terminal phase. -/
theorem redrive_terminal_of_nonTerminal (r : GTxn) (h : nonTerminal r.phase = true) :
    terminalPhase (sweepRedrive r).phase = true := by
  rcases r with ⟨id, ph, rc, mr, tt, ut⟩
  cases ph <;> simp_all [nonTerminal, sweepRedrive, sweepDispatch, coordConfirmPhase,
    coordCancelPhase, confirmPhaseStart, confirmPhaseFinish, cancelPhaseStart,
    cancelPhaseFinish, terminalPhase]

/-- Claim C8: the recovery sweep selects only transactions in a non-terminal
phase with retry_count below max_retry and the current time before
timeout_time; each selected transaction is dispatched according to its phase
(TRYING via Cancel, TRIED and CONFIRMING via Confirm, CANCELLING via Cancel)
and the re-drive reaches a terminal phase; a transaction past its timeout is
marked FAILED, and FAILED rows are never selected. -/
theorem c8_sweeper_selection_and_redrive (now : Int) (rows : List GTxn) :
    (∀ r ∈ sweepSelect now rows,
      (nonTerminal r.phase = true ∧ r.retryCount < r.maxRetry ∧ now < r.timeoutTime) ∧
      (r.phase = .trying → sweepDispatch r.phase = some .cancelAct) ∧
      (r.phase = .tried ∨ r.phase = .confirming → sweepDispatch r.phase = some .confirmAct) ∧
      (r.phase = .cancelling → sweepDispatch r.phase = some .cancelAct) ∧
      terminalPhase (sweepRedrive r).phase = true) ∧
    (∀ r : GTxn, r.timeoutTime < now → (markTimeoutFailed now r).phase = .failed) ∧
    (∀ r : GTxn, r.phase = .failed → r ∉ sweepSelect now rows) := by
  refine ⟨?_, ?_, ?_⟩
  · intro r hr
    have hf := mem_sweepSelect_filter now rows r hr
    simp only [sweepFilter, Bool.and_eq_true, decide_eq_true_eq] at hf
    obtain ⟨⟨h1, h2⟩, h3⟩ := hf
    refine ⟨⟨h1, h2, h3⟩, ?_, ?_, ?_, redrive_terminal_of_nonTerminal r h1⟩
    · intro hp; simp [sweepDispatch, hp]
    · rintro (hp | hp) <;> simp [sweepDispatch, hp]
    · intro hp; simp [sweepDispatch, hp]
  · intro r h
    simp [markTimeoutFailed, h]
  · intro r h hmem
    have hf := mem_sweepSelect_filter now rows r hmem
    simp [sweepFilter, nonTerminal, h] at hf

/-- Witness for claim C8: a TRYING row inside the selection window is re-driven
to a terminal phase, a timed-out row is marked FAILED, and a FAILED row is not
selected. -/
theorem c8_sweeper_witness :
    terminalPhase (sweepRedrive ⟨1, .trying, 0, 5, 100, 50⟩).phase = true ∧
    (markTimeoutFailed 10 ⟨2, .tried, 0, 5, 3, 0⟩).phase = .failed ∧
    (⟨3, .failed, 0, 5, 100, 0⟩ : GTxn) ∉ sweepSelect 10 [⟨1, .trying, 0, 5, 100, 50⟩] :=
  ⟨((c8_sweeper_selection_and_redrive 10 [⟨1, .trying, 0, 5, 100, 50⟩]).1
      ⟨1, .trying, 0, 5, 100, 50⟩ (by decide)).2.2.2.2,
   (c8_sweeper_selection_and_redrive 10 [⟨1, .trying, 0, 5, 100, 50⟩]).2.1
      ⟨2, .tried, 0, 5, 3, 0⟩ (by decide),
   (c8_sweeper_selection_and_redrive 10 [⟨1, .trying, 0, 5, 100, 50⟩]).2.2
      ⟨3, .failed, 0, 5, 100, 0⟩ rfl⟩

/-- statusQty is nonnegative for a row with nonnegative quantity. -/
theorem statusQty_nonneg (st : FreezeStatus) (f : FreezeRec) (h : 0 ≤ f.quantity) :
    0 ≤ statusQty st f := by
  unfold statusQty
  split <;> omega

/-- sumByStatus distributes over cons. -/
theorem sumByStatus_cons (st : FreezeStatus) (a : FreezeRec) (l : List FreezeRec) :
    sumByStatus st (a :: l) = statusQty st a + sumByStatus st l := by
  simp [sumByStatus]

/-- sumByStatus distributes over append. -/
theorem sumByStatus_append (st : FreezeStatus) (l₁ l₂ : List FreezeRec) :
    sumByStatus st (l₁ ++ l₂) = sumByStatus st l₁ + sumByStatus st l₂ := by
  simp [sumByStatus]

/-- sumByStatus of a singleton. -/
theorem sumByStatus_singleton (st : FreezeStatus) (f : FreezeRec) :
    sumByStatus st [f] = statusQty st f := by
  simp [sumByStatus]

/-- sumByStatus is nonnegative when all quantities are. -/
theorem sumByStatus_nonneg (st : FreezeStatus) (l : List FreezeRec)
    (h : ∀ f ∈ l, 0 ≤ f.quantity) : 0 ≤ sumByStatus st l := by
  induction l with
  | nil => simp [sumByStatus]
  | cons a l ih =>
    have ha := statusQty_nonneg st a (h a (by simp))
    have hl := ih (fun f hf => h f (List.mem_cons_of_mem _ hf))
    rw [sumByStatus_cons]
    omega

/-- A member contributes at most the whole sum of its status. -/
theorem statusQty_le_sum (st : FreezeStatus) (r : FreezeRec) :
    ∀ l : List FreezeRec, r ∈ l → (∀ f ∈ l, 0 ≤ f.quantity) →
      statusQty st r ≤ sumByStatus st l := by
  intro l
  induction l with
  | nil => intro h; cases h
  | cons a l ih =>
    intro hr h
    rw [sumByStatus_cons]
    rcases List.mem_cons.mp hr with rfl | h1
    · have := sumByStatus_nonneg st l (fun f hf => h f (List.mem_cons_of_mem _ hf))
      omega
    · have h2 := ih h1 (fun f hf => h f (List.mem_cons_of_mem _ hf))
      have ha := statusQty_nonneg st a (h a (by simp))
      omega

/-- markFreeze leaves a list without rows of the transaction unchanged. -/
theorem markFreeze_fresh (tx : Nat) (st : FreezeStatus) :
    ∀ l : List FreezeRec, (∀ f ∈ l, f.txId ≠ tx) → markFreeze tx st l = l := by
  intro l
  induction l with
  | nil => intro _; rfl
  | cons a l ih =>
    intro h
    have ha : ¬ a.txId = tx := h a (by simp)
    have htl := ih (fun f hf => h f (List.mem_cons_of_mem _ hf))
    simp only [markFreeze, List.map_cons, if_neg ha]
    simp only [markFreeze] at htl
    rw [htl]

/-- Effect of markFreeze on a status sum: with distinct transaction ids, the
single row r of the transaction loses its old contribution and gains the one
of the new status. -/
theorem sumByStatus_markFreeze (st newSt : FreezeStatus) (tx : Nat) (r : FreezeRec) :
    ∀ l : List FreezeRec, r ∈ l → r.txId = tx →
      l.Pairwise (fun a b => a.txId ≠ b.txId) →
      sumByStatus st (markFreeze tx newSt l) =
        sumByStatus st l - statusQty st r + (if newSt = st then r.quantity else 0) := by
  intro l
  induction l with
  | nil => intro h; cases h
  | cons a l ih =>
    intro hr hrtx hp
    obtain ⟨hpa, hpl⟩ := List.pairwise_cons.mp hp
    rcases List.mem_cons.mp hr with rfl | h1
    · have hfresh : ∀ f ∈ l, f.txId ≠ tx := by
        intro f hf hcon
        exact (hrtx ▸ hpa f hf) hcon.symm
      simp only [markFreeze, List.map_cons, if_pos hrtx]
      have hml := markFreeze_fresh tx newSt l hfresh
      simp only [markFreeze] at hml
      rw [hml, sumByStatus_cons, sumByStatus_cons]
      have hq : statusQty st { r with status := newSt } =
          if newSt = st then r.quantity else 0 := by
        simp [statusQty]
      rw [hq]
      omega
    · have ha : ¬ a.txId = tx := by
        intro hcon
        exact (hrtx ▸ hpa r h1) (hcon ▸ rfl)
      simp only [markFreeze, List.map_cons, if_neg ha]
      rw [sumByStatus_cons, sumByStatus_cons]
      have htl := ih h1 hrtx hpl
      simp only [markFreeze] at htl
      rw [htl]
      omega

/-- markFreeze preserves nonnegativity of quantities. -/
theorem markFreeze_quantity (tx : Nat) (st : FreezeStatus) (l : List FreezeRec)
    (h : ∀ f ∈ l, 0 ≤ f.quantity) : ∀ f ∈ markFreeze tx st l, 0 ≤ f.quantity := by
  intro f hf
  unfold markFreeze at hf
  obtain ⟨x, hx, hfx⟩ := List.mem_map.mp hf
  subst hfx
  split <;> simpa using h x hx

/-- markFreeze preserves distinctness of transaction ids. -/
theorem markFreeze_pairwise (tx : Nat) (st : FreezeStatus) (l : List FreezeRec)
    (h : l.Pairwise (fun a b => a.txId ≠ b.txId)) :
    (markFreeze tx st l).Pairwise (fun a b => a.txId ≠ b.txId) := by
  unfold markFreeze
  rw [List.pairwise_map]
  refine h.imp ?_
  intro a b hab
  have h1 : (if a.txId = tx then { a with status := st } else a).txId = a.txId := by
    split <;> rfl
  have h2 : (if b.txId = tx then { b with status := st } else b).txId = b.txId := by
    split <;> rfl
  rw [h1, h2]
  exact hab

/-- A state satisfying the invariant is a legal (idle) step from itself. -/
theorem goodStep_refl (s : SIState) (h : SIInv s) : goodStep s s := by
  obtain ⟨h1, h2, h3, h4, h5⟩ := h
  have hfz : 0 ≤ s.frozenStock := by
    rw [h2]
    exact sumByStatus_nonneg _ _ h4
  exact ⟨by unfold totalOf; omega, h1, hfz, h1, h2, h3, h4, h5⟩

/-- SeckillInventoryResource.Try makes a legal step from any invariant state,
for a nonnegative quantity and a transaction id with no prior freeze row. -/
theorem try_goodStep (tx : Nat) (q : Int) (s : SIState) (hInv : SIInv s)
    (hq : 0 ≤ q) (hfresh : ∀ f ∈ s.freezes, f.txId ≠ tx) :
    goodStep s (SeckillInventoryResource.Try tx q s).2 := by
  obtain ⟨h1, h2, h3, h4, h5⟩ := hInv
  have hfz : 0 ≤ s.frozenStock := by
    rw [h2]
    exact sumByStatus_nonneg _ _ h4
  by_cases hlt : s.stock < q
  · simp only [SeckillInventoryResource.Try, if_pos hlt]
    exact goodStep_refl s ⟨h1, h2, h3, h4, h5⟩
  · simp only [SeckillInventoryResource.Try, if_neg hlt]
    refine ⟨by unfold totalOf; dsimp; omega, by dsimp; omega, by dsimp; omega,
      by dsimp; omega, ?_, ?_, ?_, ?_⟩
    · show s.frozenStock + q =
        sumByStatus .frozen (s.freezes ++ [{ txId := tx, quantity := q, status := .frozen }])
      rw [sumByStatus_append, sumByStatus_singleton]
      simp [statusQty]
      omega
    · show sumByStatus .confirmed
          (s.freezes ++ [{ txId := tx, quantity := q, status := .frozen }]) ≤ s.soldStock
      rw [sumByStatus_append, sumByStatus_singleton]
      have : statusQty FreezeStatus.confirmed
          { txId := tx, quantity := q, status := FreezeStatus.frozen } = 0 := by
        simp [statusQty]
      omega
    · intro f hf
      rcases List.mem_append.mp hf with hf1 | hf1
      · exact h4 f hf1
      · simp at hf1
        rw [hf1]
        exact hq
    · rw [List.pairwise_append]
      refine ⟨h5, by simp, ?_⟩
      intro a ha b hb
      simp at hb
      rw [hb]
      exact hfresh a ha

/-- SeckillInventoryResource.Confirm makes a legal step from any invariant
state. -/
theorem confirm_goodStep (tx : Nat) (s : SIState) (hInv : SIInv s) :
    goodStep s (SeckillInventoryResource.Confirm tx s).2 := by
  obtain ⟨h1, h2, h3, h4, h5⟩ := hInv
  have hfz : 0 ≤ s.frozenStock := by
    rw [h2]
    exact sumByStatus_nonneg _ _ h4
  cases hf : s.freezes.find? (fun f => decide (f.txId = tx ∧ f.status = .frozen)) with
  | none =>
    simp only [SeckillInventoryResource.Confirm, hf]
    exact goodStep_refl s ⟨h1, h2, h3, h4, h5⟩
  | some r =>
    simp only [SeckillInventoryResource.Confirm, hf]
    have hrmem := List.mem_of_find?_eq_some hf
    have hp := List.find?_some hf
    simp only [decide_eq_true_eq] at hp
    obtain ⟨hrtx, hrst⟩ := hp
    have hrq : 0 ≤ r.quantity := h4 r hrmem
    have hrle := statusQty_le_sum FreezeStatus.frozen r s.freezes hrmem h4
    have hqf : statusQty FreezeStatus.frozen r = r.quantity := by
      simp [statusQty, hrst]
    have hqc : statusQty FreezeStatus.confirmed r = 0 := by
      simp [statusQty, hrst]
    have hsf := sumByStatus_markFreeze FreezeStatus.frozen FreezeStatus.confirmed
      tx r s.freezes hrmem hrtx h5
    have hsc := sumByStatus_markFreeze FreezeStatus.confirmed FreezeStatus.confirmed
      tx r s.freezes hrmem hrtx h5
    rw [hqf] at hsf
    rw [hqc] at hsc
    simp at hsf hsc
    refine ⟨by unfold totalOf; dsimp; omega, by dsimp; omega, by dsimp; omega,
      by dsimp; omega, ?_, ?_, ?_, ?_⟩
    · show s.frozenStock - r.quantity = sumByStatus .frozen (markFreeze tx .confirmed s.freezes)
      rw [hsf]
      omega
    · show sumByStatus .confirmed (markFreeze tx .confirmed s.freezes) ≤ s.soldStock + r.quantity
      rw [hsc]
      omega
    · exact markFreeze_quantity tx .confirmed s.freezes h4
    · exact markFreeze_pairwise tx .confirmed s.freezes h5

/-- SeckillInventoryResource.Cancel makes a legal step from any invariant
state. -/
theorem cancel_goodStep (tx : Nat) (s : SIState) (hInv : SIInv s) :
    goodStep s (SeckillInventoryResource.Cancel tx s).2 := by
  obtain ⟨h1, h2, h3, h4, h5⟩ := hInv
  have hfz : 0 ≤ s.frozenStock := by
    rw [h2]
    exact sumByStatus_nonneg _ _ h4
  cases hf : s.freezes.find?
      (fun f => decide (f.txId = tx ∧ (f.status = .frozen ∨ f.status = .confirmed))) with
  | none =>
    simp only [SeckillInventoryResource.Cancel, hf]
    exact goodStep_refl s ⟨h1, h2, h3, h4, h5⟩
  | some r =>
    have hrmem := List.mem_of_find?_eq_some hf
    have hp := List.find?_some hf
    simp only [decide_eq_true_eq] at hp
    obtain ⟨hrtx, hrst⟩ := hp
    have hrq : 0 ≤ r.quantity := h4 r hrmem
    have hsf := sumByStatus_markFreeze FreezeStatus.frozen FreezeStatus.cancelled
      tx r s.freezes hrmem hrtx h5
    have hsc := sumByStatus_markFreeze FreezeStatus.confirmed FreezeStatus.cancelled
      tx r s.freezes hrmem hrtx h5
    by_cases hst : r.status = .frozen
    · have hrle := statusQty_le_sum FreezeStatus.frozen r s.freezes hrmem h4
      have hqf : statusQty FreezeStatus.frozen r = r.quantity := by
        simp [statusQty, hst]
      have hqc : statusQty FreezeStatus.confirmed r = 0 := by
        simp [statusQty, hst]
      simp only [SeckillInventoryResource.Cancel, hf, if_pos hst]
      rw [hqf] at hsf
      rw [hqc] at hsc
      rw [hqf] at hrle
      simp at hsf hsc
      refine ⟨by unfold totalOf; dsimp; omega, by dsimp; omega, by dsimp; omega,
        by dsimp; omega, ?_, ?_, ?_, ?_⟩
      · show s.frozenStock - r.quantity = sumByStatus .frozen (markFreeze tx .cancelled s.freezes)
        rw [hsf]
        omega
      · show sumByStatus .confirmed (markFreeze tx .cancelled s.freezes) ≤ s.soldStock
        rw [hsc]
        omega
      · exact markFreeze_quantity tx .cancelled s.freezes h4
      · exact markFreeze_pairwise tx .cancelled s.freezes h5
    · have hstc : r.status = .confirmed := hrst.resolve_left hst
      have hrle := statusQty_le_sum FreezeStatus.confirmed r s.freezes hrmem h4
      have hqf : statusQty FreezeStatus.frozen r = 0 := by
        simp [statusQty, hstc]
      have hqc : statusQty FreezeStatus.confirmed r = r.quantity := by
        simp [statusQty, hstc]
      simp only [SeckillInventoryResource.Cancel, hf, if_neg hst]
      rw [hqf] at hsf
      rw [hqc] at hsc
      rw [hqc] at hrle
      simp at hsf hsc
      refine ⟨by unfold totalOf; dsimp; omega, by dsimp; omega, by dsimp; omega,
        by dsimp; omega, ?_, ?_, ?_, ?_⟩
      · show s.frozenStock = sumByStatus .frozen (markFreeze tx .cancelled s.freezes)
        rw [hsf]
        omega
      · show sumByStatus .confirmed (markFreeze tx .cancelled s.freezes) ≤ s.soldStock - r.quantity
        rw [hsc]
        omega
      · exact markFreeze_quantity tx .cancelled s.freezes h4
      · exact markFreeze_pairwise tx .cancelled s.freezes h5

/-- Claim C6: from any reachable state of the seckill_tcc.go inventory (one
satisfying the invariant), each of Try (with a nonnegative quantity and a fresh
transaction id), Confirm, and Cancel preserves the partition equation
frozen + available = total - sold (total being the conserved initial sum),
keeps available and frozen nonnegative, and maintains the invariant. -/
theorem c6_operations_preserve_invariant (s : SIState) (tx : Nat) (q : Int) (hInv : SIInv s) :
    (0 ≤ q → (∀ f ∈ s.freezes, f.txId ≠ tx) →
      goodStep s (SeckillInventoryResource.Try tx q s).2) ∧
    goodStep s (SeckillInventoryResource.Confirm tx s).2 ∧
    goodStep s (SeckillInventoryResource.Cancel tx s).2 :=
  ⟨fun hq hfresh => try_goodStep tx q s hInv hq hfresh,
   confirm_goodStep tx s hInv, cancel_goodStep tx s hInv⟩

/-- Witness for claim C6 at a concrete invariant state. -/
theorem c6_operations_preserve_invariant_witness :
    goodStep ⟨10, 0, 0, []⟩ (SeckillInventoryResource.Try 1 2 ⟨10, 0, 0, []⟩).2 ∧
    goodStep ⟨10, 0, 0, []⟩ (SeckillInventoryResource.Confirm 1 ⟨10, 0, 0, []⟩).2 ∧
    goodStep ⟨10, 0, 0, []⟩ (SeckillInventoryResource.Cancel 1 ⟨10, 0, 0, []⟩).2 :=
  ⟨(c6_operations_preserve_invariant ⟨10, 0, 0, []⟩ 1 2
      ⟨by norm_num, rfl, by simp [sumByStatus], by simp, by simp⟩).1 (by norm_num) (by simp),
   (c6_operations_preserve_invariant ⟨10, 0, 0, []⟩ 1 2
      ⟨by norm_num, rfl, by simp [sumByStatus], by simp, by simp⟩).2.1,
   (c6_operations_preserve_invariant ⟨10, 0, 0, []⟩ 1 2
      ⟨by norm_num, rfl, by simp [sumByStatus], by simp, by simp⟩).2.2⟩

end Spec2Proof
